import Mathlib

/-!
Shallow embedding of the user-registration program (Go, `src/main.go`):
a three-layer service — transport (`JsonOverHTTP`), business logic
(`UserServiceImpl`), persistence (`MemoryUserStorage`) — registering and
looking up users by email.

Modelling conventions:
* Go errors are a closed sum `Err` (the two sentinel values
  `ErrUserNotFound`, `ErrEmailExists`, and `other msg` for every other
  error value; Go compares sentinels by identity, the constructors model
  that identity).
* The in-memory Go map `map[string]*User` is an association list
  `Store`; `MemoryUserStorage.Save` performs the map assignment
  `store[user.Email] = user` (overwrite the entry with that key, or
  append a fresh one).
* Interfaces `UserStorer` / `UserService` are structures of functions,
  polymorphic in the storage state `σ`; stateful methods pass the state
  explicitly and return the new state.
* Fallible Go functions return `Except Err _` (value-returning) or
  `Option Err` (error-only result, `none` = Go's `nil` error).
* An HTTP handler is a function from method, decoded input and storage
  state to the new state and an `HttpResponse` (status code and body);
  a JSON body that fails to decode is `none`, a missing query parameter
  is the empty string (Go's `r.FormValue`).
-/

namespace Separation

/-- `type User struct { Email, Name string }`. -/
structure User where
  Email : String
  Name : String
deriving DecidableEq, Repr

/-- The closed set of Go error values that flow through the program:
`ErrUserNotFound`, `ErrEmailExists`, and any other error (carrying its
message). -/
inductive Err where
  | userNotFound
  | emailExists
  | other (msg : String)
deriving DecidableEq, Repr

/-- `err.Error()`: the message of each error value
(`errors.New("User not found")`, `errors.New("Email is already in use")`). -/
def Err.message : Err → String
  | .userNotFound => "User not found"
  | .emailExists => "Email is already in use"
  | .other msg => msg

/-- The state of `MemoryUserStorage`: the Go map `store map[string]*User`,
as an association list keyed by email. -/
abbrev Store := List (String × User)

/-- `func (ms *MemoryUserStorage) Get(ctx, email)`: return the stored user
for `email`, or fail with `ErrUserNotFound`. -/
def MemoryUserStorage.Get (s : Store) (email : String) : Except Err User :=
  match s.find? (fun p => p.1 == email) with
  | some p => .ok p.2
  | none => .error .userNotFound

/-- `func (ms *MemoryUserStorage) Save(ctx, user)`: the map assignment
`ms.store[user.Email] = user` — overwrite the entry keyed by `user.Email`
when present, else add it — then `return nil` (never fails). -/
def MemoryUserStorage.Save (s : Store) (user : User) : Store × Option Err :=
  (if s.any (fun p => p.1 == user.Email) then
    s.map (fun p => if p.1 == user.Email then (user.Email, user) else p)
  else s ++ [(user.Email, user)], none)

/-- The `UserStorer` interface: `Get(ctx, email) (*User, error)` and
`Save(ctx, user) error`, over a storage state `σ`. -/
structure UserStorer (σ : Type) where
  Get : σ → String → Except Err User
  Save : σ → User → σ × Option Err

/-- `NewMemoryUserStorage()` seen through the `UserStorer` interface. -/
def memStorer : UserStorer Store :=
  { Get := MemoryUserStorage.Get, Save := MemoryUserStorage.Save }

/-- `type RegisterParams struct { Email, Name string }`. -/
structure RegisterParams where
  Email : String
  Name : String
deriving DecidableEq, Repr

/-- `strings.ContainsRune(s, c)`: whether the string's characters include
the code point `c`. -/
def containsRune (s : String) (c : Char) : Bool :=
  s.data.contains c

/-- `func (rp *RegisterParams) Validate() error`: email non-empty, email
contains `@`, name non-empty; the first violated rule's message, else
`nil` (`none`). -/
def RegisterParams.Validate (rp : RegisterParams) : Option String :=
  if rp.Email = "" then some "Email cannot be empty"
  else if ¬ containsRune rp.Email '@' then
    some "Email must include an \'@\' symbol"
  else if rp.Name = "" then some "Name cannot be empty"
  else none

/-- `func (us *UserServiceImpl) Register(ctx, params) error`: call
`Get(params.Email)`; if it succeeds fail with `ErrEmailExists`; if it
fails with anything other than `ErrUserNotFound` propagate that error;
otherwise build the `User` from the params and return `Save`'s result. -/
def UserServiceImpl.Register (st : UserStorer σ) (s : σ)
    (params : RegisterParams) : σ × Option Err :=
  match st.Get s params.Email with
  | .ok _ => (s, some .emailExists)
  | .error err =>
    if err ≠ .userNotFound then (s, some err)
    else st.Save s { Email := params.Email, Name := params.Name }

/-- `func (us *UserServiceImpl) GetByEmail(ctx, email)`: passthrough to
`userStorage.Get` (reads the state, never changes it). -/
def UserServiceImpl.GetByEmail (st : UserStorer σ) (s : σ)
    (email : String) : Except Err User :=
  st.Get s email

/-- The `UserService` interface: `Register(ctx, *RegisterParams) error`,
`GetByEmail(ctx, string) (*User, error)`. -/
structure UserService (σ : Type) where
  Register : σ → RegisterParams → σ × Option Err
  GetByEmail : σ → String → Except Err User

/-- `NewUserServiceImpl(us)` seen through the `UserService` interface. -/
def implService (st : UserStorer σ) : UserService σ :=
  { Register := UserServiceImpl.Register st
    GetByEmail := UserServiceImpl.GetByEmail st }

/-- The whole wired stack of `main()`: `UserServiceImpl` over
`MemoryUserStorage`. -/
def memService : UserService Store := implService memStorer

/-- An HTTP response: status code and body (`http.Error` writes the
message as plain text; a handler that only calls `WriteHeader` leaves the
body empty). -/
structure HttpResponse where
  status : Nat
  body : String
deriving DecidableEq, Repr

/-- `json.NewEncoder(w).Encode(u)` on a `User`: its JSON object with the
`email` and `name` fields. -/
def encodeUser (u : User) : String :=
  "\x7b\"email\":\"" ++ u.Email ++ "\",\"name\":\"" ++ u.Name ++ "\"\x7d"

/-- `func (j *JsonOverHTTP) Register(w, r)`: 405 unless POST; 400 when the
JSON body fails to decode (`body = none`) or validation fails; then call
the service: `ErrEmailExists` → 403, any other error → 500, success →
201 with empty body. -/
def JsonOverHTTP.Register (svc : UserService σ) (method : String)
    (body : Option RegisterParams) (s : σ) : σ × HttpResponse :=
  if method ≠ "POST" then
    (s, ⟨405, "Register requires a post request"⟩)
  else
    match body with
    | none => (s, ⟨400, "Unable to read your request"⟩)
    | some params =>
      match params.Validate with
      | some msg => (s, ⟨400, msg⟩)
      | none =>
        let r := svc.Register s params
        match r.2 with
        | some Err.emailExists => (r.1, ⟨403, Err.emailExists.message⟩)
        | some e => (r.1, ⟨500, e.message⟩)
        | none => (r.1, ⟨201, ""⟩)

/-- `func (j *JsonOverHTTP) validateEmail(email) error`: email non-empty
and containing `@`; the first violated rule's message, else `nil`. -/
def JsonOverHTTP.validateEmail (email : String) : Option String :=
  if email = "" then some "Email must not be empty"
  else if ¬ containsRune email '@' then
    some "Email must include an \'@\' symbol"
  else none

/-- `func (j *JsonOverHTTP) GetUser(w, r)`: 405 unless GET; read the
`email` query parameter (missing = `""`); 400 when `validateEmail` fails;
then call the service: `ErrUserNotFound` → 404, any other error → 500,
success → 200 with the user encoded as JSON. -/
def JsonOverHTTP.GetUser (svc : UserService σ) (method : String)
    (email : String) (s : σ) : σ × HttpResponse :=
  if method ≠ "GET" then
    (s, ⟨405, "GetUser requires a get request"⟩)
  else
    match JsonOverHTTP.validateEmail email with
    | some msg => (s, ⟨400, msg⟩)
    | none =>
      match svc.GetByEmail s email with
      | .error Err.userNotFound => (s, ⟨404, Err.userNotFound.message⟩)
      | .error e => (s, ⟨500, e.message⟩)
      | .ok u => (s, ⟨200, encodeUser u⟩)

/-- The storage states reachable from the empty store by any sequence of
`Register` and `GetByEmail` operations of the wired stack. -/
inductive Reachable : Store → Prop
  | empty : Reachable []
  | register (s : Store) (p : RegisterParams) :
      Reachable s → Reachable (UserServiceImpl.Register memStorer s p).1
  | getByEmail (s : Store) (email : String) : Reachable s → Reachable s

/-! ### Helper lemmas about the store -/

/-- The two branches of `Save`, isolated: overwrite when the key is
present. -/
lemma save_fst_pos (s : Store) (u : User)
    (ha : s.any (fun p => p.1 == u.Email) = true) :
    (MemoryUserStorage.Save s u).1 =
      s.map (fun p => if p.1 == u.Email then (u.Email, u) else p) := by
  unfold MemoryUserStorage.Save
  rw [if_pos ha]

/-- The two branches of `Save`, isolated: append when the key is absent. -/
lemma save_fst_neg (s : Store) (u : User)
    (ha : s.any (fun p => p.1 == u.Email) = false) :
    (MemoryUserStorage.Save s u).1 = s ++ [(u.Email, u)] := by
  unfold MemoryUserStorage.Save
  rw [if_neg (by simp [ha])]

/-- Overwriting the entry keyed by `u.Email` makes lookup of `u.Email`
find `(u.Email, u)`, provided some entry had that key. -/
lemma find_overwrite_self (l : Store) (u : User)
    (h : l.any (fun p => p.1 == u.Email) = true) :
    (l.map (fun p => if p.1 == u.Email then (u.Email, u) else p)).find?
      (fun p => p.1 == u.Email) = some (u.Email, u) := by
  induction l with
  | nil => simp at h
  | cons p t ih =>
    by_cases hp : (p.1 == u.Email) = true
    · rw [List.map_cons, if_pos hp, List.find?_cons]
      simp
    · have ht : t.any (fun p => p.1 == u.Email) = true := by
        simpa [List.any_cons, hp] using h
      rw [List.map_cons, if_neg hp, List.find?_cons]
      simp only [Bool.not_eq_true] at hp
      simp only [hp]
      exact ih ht

/-- Overwriting the entry keyed by `u.Email` does not change lookup of any
other key `e`. -/
lemma find_overwrite_other (l : Store) (u : User) (e : String)
    (he : e ≠ u.Email) :
    (l.map (fun p => if p.1 == u.Email then (u.Email, u) else p)).find?
      (fun p => p.1 == e) = l.find? (fun p => p.1 == e) := by
  induction l with
  | nil => rfl
  | cons p t ih =>
    by_cases hp : (p.1 == u.Email) = true
    · have hue : (u.Email == e) = false := beq_eq_false_iff_ne.2 (Ne.symm he)
      have hpe : (p.1 == e) = false := by
        rw [eq_of_beq hp]
        exact hue
      rw [List.map_cons, if_pos hp, List.find?_cons, List.find?_cons]
      simp only [hue, hpe]
      exact ih
    · simp only [Bool.not_eq_true] at hp
      rw [List.map_cons, if_neg (by simp [hp]), List.find?_cons,
        List.find?_cons]
      cases hpe : (p.1 == e) with
      | true => rfl
      | false => exact ih

/-- Overwriting an entry in place leaves the key list unchanged. -/
lemma keys_overwrite (l : Store) (u : User) :
    (l.map (fun p => if p.1 == u.Email then (u.Email, u) else p)).map
      Prod.fst = l.map Prod.fst := by
  rw [List.map_map]
  apply List.map_congr_left
  intro p _
  by_cases h : (p.1 == u.Email) = true
  · simp only [Function.comp, if_pos h]
    exact (eq_of_beq h).symm
  · simp only [Function.comp, if_neg h]

/-- `Save` keeps the store's keys free of duplicates. -/
lemma save_keys_nodup (s : Store) (u : User)
    (h : (s.map Prod.fst).Nodup) :
    ((MemoryUserStorage.Save s u).1.map Prod.fst).Nodup := by
  by_cases ha : s.any (fun p => p.1 == u.Email) = true
  · rw [save_fst_pos s u ha, keys_overwrite]
    exact h
  · rw [Bool.not_eq_true] at ha
    rw [save_fst_neg s u ha, List.map_append, List.nodup_append]
    refine ⟨h, List.nodup_singleton _, ?_⟩
    simp only [List.map_cons, List.map_nil, List.disjoint_singleton]
    intro hmem
    obtain ⟨p, hp, hpe⟩ := List.mem_map.1 hmem
    have := List.any_eq_false.1 ha p hp
    exact this (by simp [beq_iff_eq, hpe])

/-- Lookup right after `Save s u` at key `u.Email` returns `u`. -/
lemma get_save_self (s : Store) (u : User) :
    MemoryUserStorage.Get (MemoryUserStorage.Save s u).1 u.Email =
      .ok u := by
  by_cases ha : s.any (fun p => p.1 == u.Email) = true
  · rw [MemoryUserStorage.Get, save_fst_pos s u ha,
      find_overwrite_self s u ha]
  · rw [Bool.not_eq_true] at ha
    rw [MemoryUserStorage.Get, save_fst_neg s u ha, List.find?_append]
    have h1 : s.find? (fun p => p.1 == u.Email) = none := by
      rw [List.find?_eq_none]
      intro x hx
      exact List.any_eq_false.1 ha x hx
    rw [h1, List.find?_singleton]
    simp

/-- Lookup after `Save s u` at any key other than `u.Email` is unchanged. -/
lemma get_save_other (s : Store) (u : User) (e : String)
    (he : e ≠ u.Email) :
    MemoryUserStorage.Get (MemoryUserStorage.Save s u).1 e =
      MemoryUserStorage.Get s e := by
  by_cases ha : s.any (fun p => p.1 == u.Email) = true
  · rw [MemoryUserStorage.Get, save_fst_pos s u ha,
      find_overwrite_other s u e he, MemoryUserStorage.Get]
  · rw [Bool.not_eq_true] at ha
    rw [MemoryUserStorage.Get, save_fst_neg s u ha, List.find?_append]
    have h2 : List.find? (fun p => p.1 == e) [(u.Email, u)] = none := by
      rw [List.find?_singleton]
      have hue : (u.Email == e) = false := beq_eq_false_iff_ne.2 (Ne.symm he)
      simp [hue]
    rw [h2, Option.or_none, MemoryUserStorage.Get]

/-- `MemoryUserStorage.Get` either succeeds or fails with
`ErrUserNotFound` — never any other error. -/
lemma mem_get_cases (s : Store) (email : String) :
    MemoryUserStorage.Get s email = .error Err.userNotFound ∨
      ∃ u, MemoryUserStorage.Get s email = .ok u := by
  unfold MemoryUserStorage.Get
  cases s.find? (fun p => p.1 == email) with
  | none => exact Or.inl rfl
  | some p => exact Or.inr ⟨p.2, rfl⟩

/-- What `Register` over the in-memory storage does: conflict when the
email is stored, otherwise save the new record and succeed. -/
lemma register_mem_cases (s : Store) (p : RegisterParams) :
    (∃ u, MemoryUserStorage.Get s p.Email = .ok u ∧
        UserServiceImpl.Register memStorer s p =
          (s, some Err.emailExists)) ∨
    (MemoryUserStorage.Get s p.Email = .error Err.userNotFound ∧
        UserServiceImpl.Register memStorer s p =
          ((MemoryUserStorage.Save s ⟨p.Email, p.Name⟩).1, none)) := by
  rcases mem_get_cases s p.Email with h | ⟨u, h⟩
  · refine Or.inr ⟨h, ?_⟩
    simp [UserServiceImpl.Register, memStorer, h, MemoryUserStorage.Save]
  · refine Or.inl ⟨u, h, ?_⟩
    simp [UserServiceImpl.Register, memStorer, h]

/-- Distinct-key stores answer each email with at most one record. -/
lemma keys_nodup_filter_le_one (s : Store)
    (h : (s.map Prod.fst).Nodup) (email : String) :
    (s.filter (fun p => p.1 == email)).length ≤ 1 := by
  rw [← List.countP_eq_length_filter]
  have h1 : List.countP (fun p => p.1 == email) s =
      List.countP (fun k => k == email) (s.map Prod.fst) := by
    rw [List.countP_map]
    rfl
  rw [h1, ← List.count_eq_countP]
  exact List.nodup_iff_count_le_one.1 h email

/-- Every reachable store has pairwise-distinct keys. -/
lemma reachable_keys_nodup (s : Store) (h : Reachable s) :
    (s.map Prod.fst).Nodup := by
  induction h with
  | empty => simp
  | register s p _ ih =>
    rcases register_mem_cases s p with ⟨u, _, hr⟩ | ⟨_, hr⟩
    · rw [hr]
      exact ih
    · rw [hr]
      exact save_keys_nodup s _ ih
  | getByEmail s email _ ih => exact ih

/-- When `Get` finds the email, `Register` reports the conflict and keeps
the state. -/
lemma register_conflict_of_get_ok {σ : Type} (st : UserStorer σ) (s : σ)
    (q : RegisterParams) (u : User) (h : st.Get s q.Email = .ok u) :
    UserServiceImpl.Register st s q = (s, some Err.emailExists) := by
  simp [UserServiceImpl.Register, h]

/-! ### The claims -/

/-- C1: `UserServiceImpl.Register` follows exactly the check-then-save
algorithm: `Storage.Get` on the params' email; success → `ErrEmailExists`;
an error other than `ErrUserNotFound` → that error propagated; otherwise
the `User` built from the params is passed to `Storage.Save`, whose result
is returned. Stated for every storage implementation, state and params. -/
theorem register_follows_algorithm {σ : Type} (st : UserStorer σ) (s : σ)
    (params : RegisterParams) :
    (∀ u, st.Get s params.Email = .ok u →
        UserServiceImpl.Register st s params = (s, some Err.emailExists)) ∧
    (∀ e, st.Get s params.Email = .error e → e ≠ Err.userNotFound →
        UserServiceImpl.Register st s params = (s, some e)) ∧
    (st.Get s params.Email = .error Err.userNotFound →
        UserServiceImpl.Register st s params =
          st.Save s { Email := params.Email, Name := params.Name }) := by
  refine ⟨fun u h => ?_, fun e h he => ?_, fun h => ?_⟩
  · simp [UserServiceImpl.Register, h]
  · simp [UserServiceImpl.Register, h, he]
  · simp [UserServiceImpl.Register, h]

/-- Witness for C1: on the empty store, registering `a@b.com` takes the
save branch and stores the new record. -/
theorem register_follows_algorithm_witness :
    UserServiceImpl.Register memStorer ([] : Store)
        ⟨"a@b.com", "Ann"⟩ =
      ([("a@b.com", ⟨"a@b.com", "Ann"⟩)], none) := by
  rw [(register_follows_algorithm memStorer ([] : Store)
    ⟨"a@b.com", "Ann"⟩).2.2 rfl]
  rfl

/-- C2: every store reachable from the empty store by `Register` and
`GetByEmail` operations holds at most one record per email. -/
theorem reachable_at_most_one_per_email (s : Store) (h : Reachable s)
    (email : String) :
    (s.filter (fun p => p.1 == email)).length ≤ 1 :=
  keys_nodup_filter_le_one s (reachable_keys_nodup s h) email

/-- Witness for C2: the store after one registration, looked up at the
registered email. -/
theorem reachable_at_most_one_per_email_witness :
    ((UserServiceImpl.Register memStorer ([] : Store)
        ⟨"a@b.com", "Ann"⟩).1.filter
      (fun p => p.1 == "a@b.com")).length ≤ 1 :=
  reachable_at_most_one_per_email _
    (Reachable.register [] ⟨"a@b.com", "Ann"⟩ Reachable.empty) "a@b.com"

/-- C3: for a syntactically valid params whose email is not stored,
`Register` succeeds, `GetByEmail` of that email then returns exactly the
registered fields, and repeating the `GetByEmail` (which leaves the store
untouched) returns the same value. -/
theorem register_then_get_roundtrip (s : Store) (p : RegisterParams)
    (_hv : p.Validate = none)
    (habs : MemoryUserStorage.Get s p.Email = .error Err.userNotFound) :
    (UserServiceImpl.Register memStorer s p).2 = none ∧
    UserServiceImpl.GetByEmail memStorer
        (UserServiceImpl.Register memStorer s p).1 p.Email =
      .ok ⟨p.Email, p.Name⟩ ∧
    UserServiceImpl.GetByEmail memStorer
        (UserServiceImpl.Register memStorer s p).1 p.Email =
      UserServiceImpl.GetByEmail memStorer
        (UserServiceImpl.Register memStorer s p).1 p.Email := by
  rcases register_mem_cases s p with ⟨u, hg, _⟩ | ⟨_, hr⟩
  · rw [habs] at hg
    exact absurd hg (by simp)
  · refine ⟨by rw [hr], ?_, rfl⟩
    rw [hr]
    exact get_save_self s ⟨p.Email, p.Name⟩

/-- Witness for C3: registering `a@b.com`/`Ann` on the empty store, then
reading it back. -/
theorem register_then_get_roundtrip_witness :
    (UserServiceImpl.Register memStorer ([] : Store)
        ⟨"a@b.com", "Ann"⟩).2 = none ∧
    UserServiceImpl.GetByEmail memStorer
        (UserServiceImpl.Register memStorer ([] : Store)
          ⟨"a@b.com", "Ann"⟩).1 "a@b.com" =
      .ok ⟨"a@b.com", "Ann"⟩ := by
  have h := register_then_get_roundtrip [] ⟨"a@b.com", "Ann"⟩
    (by decide) rfl
  exact ⟨h.1, h.2.1⟩

/-- C4: when a first `Register` for an email succeeds, a second `Register`
for the same email fails with `ErrEmailExists`, leaves the store
unchanged, and the stored record for that email is the first
registration's. -/
theorem register_twice_conflict (s : Store) (p q : RegisterParams)
    (heq : q.Email = p.Email)
    (h1 : (UserServiceImpl.Register memStorer s p).2 = none) :
    UserServiceImpl.Register memStorer
        (UserServiceImpl.Register memStorer s p).1 q =
      ((UserServiceImpl.Register memStorer s p).1,
        some Err.emailExists) ∧
    MemoryUserStorage.Get (UserServiceImpl.Register memStorer s p).1
        p.Email =
      .ok ⟨p.Email, p.Name⟩ := by
  rcases register_mem_cases s p with ⟨u, _, hr⟩ | ⟨_, hr⟩
  · rw [hr] at h1
    exact absurd h1 (by simp)
  · have hget : MemoryUserStorage.Get
        (UserServiceImpl.Register memStorer s p).1 p.Email =
        .ok ⟨p.Email, p.Name⟩ := by
      rw [hr]
      exact get_save_self s ⟨p.Email, p.Name⟩
    refine ⟨?_, hget⟩
    have hq : MemoryUserStorage.Get
        (UserServiceImpl.Register memStorer s p).1 q.Email =
        .ok ⟨p.Email, p.Name⟩ := by
      rw [heq]
      exact hget
    exact register_conflict_of_get_ok memStorer _ q _ hq

/-- Witness for C4: registering `a@b.com` twice from the empty store. -/
theorem register_twice_conflict_witness :
    UserServiceImpl.Register memStorer
        (UserServiceImpl.Register memStorer ([] : Store)
          ⟨"a@b.com", "Ann"⟩).1 ⟨"a@b.com", "Bob"⟩ =
      ((UserServiceImpl.Register memStorer ([] : Store)
          ⟨"a@b.com", "Ann"⟩).1, some Err.emailExists) ∧
    MemoryUserStorage.Get
        (UserServiceImpl.Register memStorer ([] : Store)
          ⟨"a@b.com", "Ann"⟩).1 "a@b.com" =
      .ok ⟨"a@b.com", "Ann"⟩ :=
  register_twice_conflict [] ⟨"a@b.com", "Ann"⟩ ⟨"a@b.com", "Bob"⟩ rfl rfl

/-- C8: `UserServiceImpl.GetByEmail` is a pure passthrough to
`Storage.Get` — same value, same error, for every storage implementation
and in particular for the in-memory one; it takes no other action on the
store (in this embedding it returns no new state, and
`MemoryUserStorage.Get` only reads the map). -/
theorem getByEmail_passthrough {σ : Type} (st : UserStorer σ) (s : σ)
    (email : String) :
    UserServiceImpl.GetByEmail st s email = st.Get s email ∧
    (∀ (s2 : Store) (e2 : String),
        UserServiceImpl.GetByEmail memStorer s2 e2 =
          MemoryUserStorage.Get s2 e2) :=
  ⟨rfl, fun _ _ => rfl⟩

/-- C5: the `/register` handler's response protocol — 405 for a non-POST
method, 400 for an undecodable body or failed validation, 403 when the
service reports `ErrEmailExists`, 500 for any other service error, and
201 with an empty body on success. Stated for every service
implementation. -/
theorem register_http_statuses {σ : Type} (svc : UserService σ)
    (method : String) (body : Option RegisterParams) (s : σ) :
    (method ≠ "POST" →
        (JsonOverHTTP.Register svc method body s).2.status = 405) ∧
    (method = "POST" → body = none →
        (JsonOverHTTP.Register svc method body s).2.status = 400) ∧
    (∀ p, method = "POST" → body = some p → p.Validate ≠ none →
        (JsonOverHTTP.Register svc method body s).2.status = 400) ∧
    (∀ p, method = "POST" → body = some p → p.Validate = none →
        (svc.Register s p).2 = some Err.emailExists →
        (JsonOverHTTP.Register svc method body s).2.status = 403) ∧
    (∀ p e, method = "POST" → body = some p → p.Validate = none →
        (svc.Register s p).2 = some e → e ≠ Err.emailExists →
        (JsonOverHTTP.Register svc method body s).2.status = 500) ∧
    (∀ p, method = "POST" → body = some p → p.Validate = none →
        (svc.Register s p).2 = none →
        (JsonOverHTTP.Register svc method body s).2 = ⟨201, ""⟩) := by
  refine ⟨fun hm => ?_, fun hm hb => ?_, fun p hm hb hv => ?_,
    fun p hm hb hv hc => ?_, fun p e hm hb hv he hne => ?_,
    fun p hm hb hv hs => ?_⟩
  · simp [JsonOverHTTP.Register, hm]
  · subst hm hb
    simp [JsonOverHTTP.Register]
  · subst hm hb
    cases hx : p.Validate with
    | none => exact absurd hx hv
    | some msg => simp [JsonOverHTTP.Register, hx]
  · subst hm hb
    simp [JsonOverHTTP.Register, hv, hc]
  · subst hm hb
    cases e with
    | emailExists => exact absurd rfl hne
    | userNotFound => simp [JsonOverHTTP.Register, hv, he]
    | other msg => simp [JsonOverHTTP.Register, hv, he]
  · subst hm hb
    simp [JsonOverHTTP.Register, hv, hs]

/-- Witness for C5: a valid POST on the empty store is answered 201 with
an empty body. -/
theorem register_http_statuses_witness :
    (JsonOverHTTP.Register memService "POST"
        (some ⟨"a@b.com", "Ann"⟩) ([] : Store)).2 = ⟨201, ""⟩ :=
  (register_http_statuses memService "POST"
      (some ⟨"a@b.com", "Ann"⟩) []).2.2.2.2.2
    ⟨"a@b.com", "Ann"⟩ rfl rfl (by decide) rfl

/-- C6: the `/user` handler's response protocol — 405 for a non-GET
method; 400 for a missing (empty) or `@`-less email, in which case the
response does not depend on the service at all; 404 when the service
reports `ErrUserNotFound`; 500 for any other service error; 200 with the
JSON-encoded user on success. Stated for every service implementation. -/
theorem getuser_http_statuses {σ : Type} (svc : UserService σ)
    (method email : String) (s : σ) :
    (method ≠ "GET" →
        (JsonOverHTTP.GetUser svc method email s).2.status = 405) ∧
    (method = "GET" → (email = "" ∨ containsRune email '@' = false) →
        (JsonOverHTTP.GetUser svc method email s).2.status = 400 ∧
        ∀ (svc2 : UserService σ),
          JsonOverHTTP.GetUser svc method email s =
            JsonOverHTTP.GetUser svc2 method email s) ∧
    (method = "GET" → JsonOverHTTP.validateEmail email = none →
        svc.GetByEmail s email = .error Err.userNotFound →
        (JsonOverHTTP.GetUser svc method email s).2.status = 404) ∧
    (∀ e, method = "GET" → JsonOverHTTP.validateEmail email = none →
        svc.GetByEmail s email = .error e → e ≠ Err.userNotFound →
        (JsonOverHTTP.GetUser svc method email s).2.status = 500) ∧
    (∀ u, method = "GET" → JsonOverHTTP.validateEmail email = none →
        svc.GetByEmail s email = .ok u →
        (JsonOverHTTP.GetUser svc method email s).2 =
          ⟨200, encodeUser u⟩) := by
  refine ⟨fun hm => ?_, fun hm hbad => ?_, fun hm hv hnf => ?_,
    fun e hm hv he hne => ?_, fun u hm hv hu => ?_⟩
  · simp [JsonOverHTTP.GetUser, hm]
  · subst hm
    have hv : ∃ msg, JsonOverHTTP.validateEmail email = some msg := by
      rcases hbad with h0 | h0
      · exact ⟨"Email must not be empty",
          by simp [JsonOverHTTP.validateEmail, h0]⟩
      · by_cases he : email = ""
        · exact ⟨"Email must not be empty",
            by simp [JsonOverHTTP.validateEmail, he]⟩
        · exact ⟨"Email must include an \'@\' symbol",
            by simp [JsonOverHTTP.validateEmail, he, h0]⟩
    obtain ⟨msg, hv⟩ := hv
    constructor
    · simp [JsonOverHTTP.GetUser, hv]
    · intro svc2
      simp [JsonOverHTTP.GetUser, hv]
  · subst hm
    simp [JsonOverHTTP.GetUser, hv, hnf]
  · subst hm
    cases e with
    | userNotFound => exact absurd rfl hne
    | emailExists => simp [JsonOverHTTP.GetUser, hv, he]
    | other msg => simp [JsonOverHTTP.GetUser, hv, he]
  · subst hm
    simp [JsonOverHTTP.GetUser, hv, hu]

/-- Witness for C6: a GET with an email lacking `@` is answered 400 for
every service backing the handler. -/
theorem getuser_http_statuses_witness :
    (JsonOverHTTP.GetUser memService "GET" "no-at-sign.com"
        ([] : Store)).2.status = 400 :=
  ((getuser_http_statuses memService "GET" "no-at-sign.com" []).2.1
    rfl (Or.inr (by decide))).1

/-- C7: `Validate` checks email non-empty, email contains `@`, name
non-empty, in that order, reporting the first violated rule's message;
on any violation the `/register` handler answers 400 with that message,
calls no service (the response is the same for every service) and leaves
the store unchanged. -/
theorem validate_first_violation (p : RegisterParams) :
    (p.Email = "" → p.Validate = some "Email cannot be empty") ∧
    (p.Email ≠ "" → containsRune p.Email '@' = false →
        p.Validate = some "Email must include an \'@\' symbol") ∧
    (p.Email ≠ "" → containsRune p.Email '@' = true → p.Name = "" →
        p.Validate = some "Name cannot be empty") ∧
    (p.Email ≠ "" → containsRune p.Email '@' = true → p.Name ≠ "" →
        p.Validate = none) ∧
    (∀ (σ : Type) (svc : UserService σ) (s : σ) (msg : String),
        p.Validate = some msg →
        JsonOverHTTP.Register svc "POST" (some p) s =
          (s, ⟨400, msg⟩)) := by
  refine ⟨fun h0 => ?_, fun h0 h1 => ?_, fun h0 h1 h2 => ?_,
    fun h0 h1 h2 => ?_, fun σ svc s msg hmsg => ?_⟩
  · simp [RegisterParams.Validate, h0]
  · simp [RegisterParams.Validate, h0, h1]
  · simp [RegisterParams.Validate, h0, h1, h2]
  · simp [RegisterParams.Validate, h0, h1, h2]
  · simp [JsonOverHTTP.Register, hmsg]

/-- Witness for C7: email `no-at-sign.com` with non-empty name is
rejected with the `@` message and the store is untouched. -/
theorem validate_first_violation_witness :
    JsonOverHTTP.Register memService "POST"
        (some ⟨"no-at-sign.com", "Ann"⟩) ([] : Store) =
      ([], ⟨400, "Email must include an \'@\' symbol"⟩) := by
  have h := validate_first_violation ⟨"no-at-sign.com", "Ann"⟩
  exact h.2.2.2.2 Store memService [] _ (h.2.1 (by decide) (by decide))

/-- C9: the in-memory `Save` never fails and `Get` fails only with
`ErrUserNotFound`; hence `Register` over this storage returns `nil` or
`ErrEmailExists` only, and neither HTTP handler of the wired stack can
answer 500. -/
theorem memory_storage_no_internal_error :
    (∀ (s : Store) (u : User), (MemoryUserStorage.Save s u).2 = none) ∧
    (∀ (s : Store) (email : String),
        MemoryUserStorage.Get s email = .error Err.userNotFound ∨
          ∃ u, MemoryUserStorage.Get s email = .ok u) ∧
    (∀ (s : Store) (p : RegisterParams),
        (UserServiceImpl.Register memStorer s p).2 = none ∨
          (UserServiceImpl.Register memStorer s p).2 =
            some Err.emailExists) ∧
    (∀ (method : String) (body : Option RegisterParams) (s : Store),
        (JsonOverHTTP.Register memService method body s).2.status ≠
          500) ∧
    (∀ (method email : String) (s : Store),
        (JsonOverHTTP.GetUser memService method email s).2.status ≠
          500) := by
  refine ⟨fun s u => rfl, mem_get_cases, fun s p => ?_, ?_, ?_⟩
  · rcases register_mem_cases s p with ⟨u, _, hr⟩ | ⟨_, hr⟩
    · exact Or.inr (by rw [hr])
    · exact Or.inl (by rw [hr])
  · intro method body s
    by_cases hm : method = "POST"
    · subst hm
      cases body with
      | none => simp [JsonOverHTTP.Register]
      | some p =>
        cases hv : p.Validate with
        | some msg => simp [JsonOverHTTP.Register, hv]
        | none =>
          rcases register_mem_cases s p with ⟨u, _, hr⟩ | ⟨_, hr⟩
          · simp [JsonOverHTTP.Register, hv, memService, implService, hr]
          · simp [JsonOverHTTP.Register, hv, memService, implService, hr]
    · simp [JsonOverHTTP.Register, hm]
  · intro method email s
    by_cases hm : method = "GET"
    · subst hm
      cases hv : JsonOverHTTP.validateEmail email with
      | some msg => simp [JsonOverHTTP.GetUser, hv]
      | none =>
        rcases mem_get_cases s email with hg | ⟨u, hg⟩
        · simp [JsonOverHTTP.GetUser, hv, memService, implService,
            UserServiceImpl.GetByEmail, memStorer, hg]
        · simp [JsonOverHTTP.GetUser, hv, memService, implService,
            UserServiceImpl.GetByEmail, memStorer, hg]
    · simp [JsonOverHTTP.GetUser, hm]

/-- C10: `Save` changes only the entry keyed by the saved user's email —
every other email reads exactly as before the save — while the saved
email reads the new record. -/
theorem save_frame (s : Store) (u : User) (e : String)
    (he : e ≠ u.Email) :
    MemoryUserStorage.Get (MemoryUserStorage.Save s u).1 e =
      MemoryUserStorage.Get s e ∧
    MemoryUserStorage.Get (MemoryUserStorage.Save s u).1 u.Email =
      .ok u :=
  ⟨get_save_other s u e he, get_save_self s u⟩

/-- Witness for C10: saving `a@b.com` next to an existing `c@d.com`
leaves the read of `c@d.com` unchanged and makes `a@b.com` read the new
record. -/
theorem save_frame_witness :
    MemoryUserStorage.Get
        (MemoryUserStorage.Save [("c@d.com", ⟨"c@d.com", "Cy"⟩)]
          ⟨"a@b.com", "Ann"⟩).1 "c@d.com" =
      MemoryUserStorage.Get [("c@d.com", ⟨"c@d.com", "Cy"⟩)]
        "c@d.com" ∧
    MemoryUserStorage.Get
        (MemoryUserStorage.Save [("c@d.com", ⟨"c@d.com", "Cy"⟩)]
          ⟨"a@b.com", "Ann"⟩).1 "a@b.com" =
      .ok ⟨"a@b.com", "Ann"⟩ :=
  save_frame [("c@d.com", ⟨"c@d.com", "Cy"⟩)] ⟨"a@b.com", "Ann"⟩
    "c@d.com" (by decide)

end Separation
